import Mathlib

/-!
Verification development for the deterministic manifest ledger core of the
OLLA2 multi-agent pipeline.  The Python sources under `multiai/` are shallowly
embedded: pure functions become Lean functions, the SQLite-backed ledger
becomes explicit state passing over lists of rows, and fallible operations
return `Except`/`Option` values.
-/

namespace OLLA2

/-! ## SHA-256 over byte lists

Faithful embedding of Python's `hashlib.sha256(...).hexdigest()` on a list of
bytes (each a `Nat < 256`).  Words are `Nat`s reduced modulo `2^32`.
-/

def w32 (n : Nat) : Nat := n % 4294967296

def rotr (s x : Nat) : Nat := w32 ((x >>> s) ||| (x <<< (32 - s)))

def bigSigma0 (x : Nat) : Nat := (rotr 2 x) ^^^ (rotr 13 x) ^^^ (rotr 22 x)

def bigSigma1 (x : Nat) : Nat := (rotr 6 x) ^^^ (rotr 11 x) ^^^ (rotr 25 x)

def smallSigma0 (x : Nat) : Nat := (rotr 7 x) ^^^ (rotr 18 x) ^^^ (x >>> 3)

def smallSigma1 (x : Nat) : Nat := (rotr 17 x) ^^^ (rotr 19 x) ^^^ (x >>> 10)

def chFn (x y z : Nat) : Nat := (x &&& y) ^^^ ((x ^^^ 4294967295) &&& z)

def majFn (x y z : Nat) : Nat := (x &&& y) ^^^ (x &&& z) ^^^ (y &&& z)

def sha256K : List Nat :=
  [1116352408, 1899447441, 3049323471, 3921009573,
   961987163, 1508970993, 2453635748, 2870763221,
   3624381080, 310598401, 607225278, 1426881987,
   1925078388, 2162078206, 2614888103, 3248222580,
   3835390401, 4022224774, 264347078, 604807628,
   770255983, 1249150122, 1555081692, 1996064986,
   2554220882, 2821834349, 2952996808, 3210313671,
   3336571891, 3584528711, 113926993, 338241895,
   666307205, 773529912, 1294757372, 1396182291,
   1695183700, 1986661051, 2177026350, 2456956037,
   2730485921, 2820302411, 3259730800, 3345764771,
   3516065817, 3600352804, 4094571909, 275423344,
   430227734, 506948616, 659060556, 883997877,
   958139571, 1322822218, 1537002063, 1747873779,
   1955562222, 2024104815, 2227730452, 2361852424,
   2428436474, 2756734187, 3204031479, 3329325298]

structure Sha256State where
  a : Nat
  b : Nat
  c : Nat
  d : Nat
  e : Nat
  f : Nat
  g : Nat
  h : Nat
deriving Repr, DecidableEq

def sha256Init : Sha256State :=
  ⟨1779033703, 3144134277, 1013904242, 2773480762,
   1359893119, 2600822924, 528734635, 1541459225⟩

def sha256Round (st : Sha256State) (kw : Nat × Nat) : Sha256State :=
  let t1 := w32 (st.h + bigSigma1 st.e + chFn st.e st.f st.g + kw.1 + kw.2)
  let t2 := w32 (bigSigma0 st.a + majFn st.a st.b st.c)
  ⟨w32 (t1 + t2), st.a, st.b, st.c, w32 (st.d + t1), st.e, st.f, st.g⟩

/-- Big-endian 8-byte length encoding of `n` (the bit length). -/
def lenBytes64 (n : Nat) : List Nat :=
  [(n >>> 56) % 256, (n >>> 48) % 256, (n >>> 40) % 256, (n >>> 32) % 256,
   (n >>> 24) % 256, (n >>> 16) % 256, (n >>> 8) % 256, n % 256]

/-- SHA-256 padding: append `0x80`, zero bytes, and the 64-bit message
bit-length, so the total length is a multiple of 64. -/
def sha256Pad (msg : List Nat) : List Nat :=
  let z := (64 - ((msg.length + 9) % 64)) % 64
  msg ++ (128 :: List.replicate z 0) ++ lenBytes64 (msg.length * 8)

/-- Group a list of bytes into big-endian 32-bit words. -/
def bytesToWords : List Nat → List Nat
  | a :: b :: c :: d :: rest =>
      (a <<< 24 ||| b <<< 16 ||| c <<< 8 ||| d) :: bytesToWords rest
  | _ => []

/-- Extend the 16 schedule words to 64, working over the reversed list
(`rw.headD` is the most recent word). -/
def extendLoop : Nat → List Nat → List Nat
  | 0, rw => rw
  | n + 1, rw =>
      extendLoop n
        (w32 (smallSigma1 (rw.getD 1 0) + rw.getD 6 0 +
              smallSigma0 (rw.getD 14 0) + rw.getD 15 0) :: rw)

def sha256Schedule (ws : List Nat) : List Nat :=
  (extendLoop 48 ws.reverse).reverse

def addStates (x y : Sha256State) : Sha256State :=
  ⟨w32 (x.a + y.a), w32 (x.b + y.b), w32 (x.c + y.c), w32 (x.d + y.d),
   w32 (x.e + y.e), w32 (x.f + y.f), w32 (x.g + y.g), w32 (x.h + y.h)⟩

def sha256Chunk (st : Sha256State) (chunk : List Nat) : Sha256State :=
  let ws := sha256Schedule (bytesToWords chunk)
  addStates st ((ws.zip sha256K).foldl sha256Round st)

/-- Split a byte list into 64-byte chunks (fuel-based structural recursion;
the fuel `l.length` always suffices since each step consumes at least one
byte). -/
def chunks64Aux : Nat → List Nat → List (List Nat)
  | 0, _ => []
  | _ + 1, [] => []
  | fuel + 1, l => (l.take 64) :: chunks64Aux fuel (l.drop 64)

def chunks64 (l : List Nat) : List (List Nat) := chunks64Aux l.length l

def wordBytes (w : Nat) : List Nat :=
  [(w >>> 24) % 256, (w >>> 16) % 256, (w >>> 8) % 256, w % 256]

def stateBytes (st : Sha256State) : List Nat :=
  wordBytes st.a ++ wordBytes st.b ++ wordBytes st.c ++ wordBytes st.d ++
  wordBytes st.e ++ wordBytes st.f ++ wordBytes st.g ++ wordBytes st.h

/-- SHA-256 digest (32 bytes) of a byte list. -/
def sha256 (msg : List Nat) : List Nat :=
  stateBytes ((chunks64 (sha256Pad msg)).foldl sha256Chunk sha256Init)

def hexChar (n : Nat) : Char :=
  if n < 10 then Char.ofNat (48 + n) else Char.ofNat (87 + n)

def byteToHex (b : Nat) : List Char :=
  [hexChar (b / 16), hexChar (b % 16)]

/-- `hashlib.sha256(msg).hexdigest()`: lowercase hex of the 32-byte digest. -/
def sha256Hex (msg : List Nat) : String :=
  String.mk ((sha256 msg).flatMap byteToHex)

/-! ## UTF-8 encoding

Embedding of Python's `str.encode("utf-8")`: each code point becomes one to
four bytes. -/

def utf8Char (c : Char) : List Nat :=
  let n := c.toNat
  if n < 128 then [n]
  else if n < 2048 then [192 ||| (n >>> 6), 128 ||| (n &&& 63)]
  else if n < 65536 then
    [224 ||| (n >>> 12), 128 ||| ((n >>> 6) &&& 63), 128 ||| (n &&& 63)]
  else
    [240 ||| (n >>> 18), 128 ||| ((n >>> 12) &&& 63),
     128 ||| ((n >>> 6) &&& 63), 128 ||| (n &&& 63)]

def utf8 (s : String) : List Nat := s.data.flatMap utf8Char

/-- `hashlib.sha256(s.encode("utf-8")).hexdigest()` on a string. -/
def sha256HexOfString (s : String) : String := sha256Hex (utf8 s)

/-! ## JSON values and Python's `json.dumps`

Manifest dictionaries are embedded as `JValue`s: null, booleans, integers,
strings, arrays and objects (association lists of string keys).  The
serializer below embeds
`json.dumps(x, sort_keys=True, separators=(",", ":"), ensure_ascii=False)`:
keys sorted lexicographically at every nesting level, no whitespace, non-ASCII
characters kept raw. -/

mutual
inductive JValue where
  | null : JValue
  | bool : Bool → JValue
  | num : Int → JValue
  | str : String → JValue
  | arr : JList → JValue
  | obj : JObj → JValue

inductive JList where
  | nil : JList
  | cons : JValue → JList → JList

inductive JObj where
  | nil : JObj
  | cons : String → JValue → JObj → JObj
end

/-- Escape one character as Python's `json.dumps(..., ensure_ascii=False)`
does: quote, backslash and control characters are escaped, everything else is
kept raw. -/
def jsonEscapeChar (c : Char) : List Char :=
  if c = '"' then ['\\', '"']
  else if c = '\\' then ['\\', '\\']
  else if c.toNat = 8 then ['\\', 'b']
  else if c.toNat = 12 then ['\\', 'f']
  else if c = '\n' then ['\\', 'n']
  else if c = '\r' then ['\\', 'r']
  else if c = '\t' then ['\\', 't']
  else if c.toNat < 32 then
    ['\\', 'u', '0', '0', hexChar (c.toNat / 16), hexChar (c.toNat % 16)]
  else [c]

/-- A JSON string literal: quoted and escaped. -/
def jsonStr (s : String) : String :=
  String.mk ('"' :: s.data.flatMap jsonEscapeChar ++ ['"'])

/-- Keys are compared as Python compares `str`s: lexicographically by code
point, a shorter strict prefix ordering first. -/
def charListLeB : List Char → List Char → Bool
  | [], _ => true
  | _ :: _, [] => false
  | a :: as, b :: bs =>
      if a.toNat < b.toNat then true
      else if b.toNat < a.toNat then false
      else charListLeB as bs

def keyLeB (s t : String) : Bool := charListLeB s.data t.data

def pairKeyLe (p q : String × String) : Prop := keyLeB p.1 q.1 = true

instance : DecidableRel pairKeyLe := fun p q => by
  unfold pairKeyLe; infer_instance

/-- Sort serialized object entries by key (`sort_keys=True`). -/
def sortPairs (l : List (String × String)) : List (String × String) :=
  l.insertionSort pairKeyLe

def renderPair (p : String × String) : String := jsonStr p.1 ++ ":" ++ p.2

mutual
/-- Serialize a `JValue` the way `json.dumps(x, sort_keys=True,
separators=(",", ":"), ensure_ascii=False)` does. -/
def serJ : JValue → String
  | .null => "null"
  | .bool true => "true"
  | .bool false => "false"
  | .num n => toString n
  | .str s => jsonStr s
  | .arr xs => "[" ++ String.intercalate "," (serJL xs) ++ "]"
  | .obj l =>
      "\x7b" ++ String.intercalate "," ((sortPairs (serJO l)).map renderPair) ++ "\x7d"

def serJL : JList → List String
  | .nil => []
  | .cons v tl => serJ v :: serJL tl

/-- An object's entries as `(raw key, serialized value)` pairs, in
declaration order. -/
def serJO : JObj → List (String × String)
  | .nil => []
  | .cons k v tl => (k, serJ v) :: serJO tl
end

/-- The fixed meta keys stripped by `compute_manifest_hash` (top level only). -/
def isMetaKey (k : String) : Bool :=
  k == "expected_sha256" || k == "version" || k == "hash_algorithm"

def stripMeta : JObj → JObj
  | .nil => .nil
  | .cons k v tl => if isMetaKey k then stripMeta tl else .cons k v (stripMeta tl)

/-- `DeterministicValidator.compute_manifest_hash` from
`multiai/core/deterministic_validator.py`: drop the meta keys at top level,
serialize canonically, hash the UTF-8 bytes with SHA-256. -/
def compute_manifest_hash (m : JObj) : String :=
  sha256HexOfString (serJ (.obj (stripMeta m)))

/-! ## Well-formed manifests and permutations of key order

A Python `dict` cannot hold two bindings of the same key, so the embedded
objects of interest have duplicate-free key lists at every nesting depth
(`wfJ`).  `KeyPerm` relates two values that have the same logical content and
differ only in the order of object keys, at any nesting depth. -/

def memB (k : String) : List String → Bool
  | [] => false
  | a :: tl => k == a || memB k tl

def nodupB : List String → Bool
  | [] => true
  | k :: tl => !(memB k tl) && nodupB tl

def objKeys : JObj → List String
  | .nil => []
  | .cons k _ tl => k :: objKeys tl

mutual
def wfJ : JValue → Bool
  | .null => true
  | .bool _ => true
  | .num _ => true
  | .str _ => true
  | .arr xs => wfJL xs
  | .obj l => nodupB (objKeys l) && wfJO l

def wfJL : JList → Bool
  | .nil => true
  | .cons v tl => wfJ v && wfJL tl

def wfJO : JObj → Bool
  | .nil => true
  | .cons _ v tl => wfJ v && wfJO tl
end

mutual
inductive KeyPerm : JValue → JValue → Prop where
  | null : KeyPerm .null .null
  | bool (b : Bool) : KeyPerm (.bool b) (.bool b)
  | num (n : Int) : KeyPerm (.num n) (.num n)
  | str (s : String) : KeyPerm (.str s) (.str s)
  | arr : KeyPermL xs ys → KeyPerm (.arr xs) (.arr ys)
  | obj : KeyPermO l₁ l₂ → KeyPerm (.obj l₁) (.obj l₂)

inductive KeyPermL : JList → JList → Prop where
  | nil : KeyPermL .nil .nil
  | cons : KeyPerm v w → KeyPermL xs ys → KeyPermL (.cons v xs) (.cons w ys)

inductive KeyPermO : JObj → JObj → Prop where
  | nil : KeyPermO .nil .nil
  | cons (k : String) : KeyPerm v w → KeyPermO l₁ l₂ →
      KeyPermO (.cons k v l₁) (.cons k w l₂)
  | swap (k₁ k₂ : String) (v₁ v₂ : JValue) (l : JObj) :
      KeyPermO (.cons k₁ v₁ (.cons k₂ v₂ l)) (.cons k₂ v₂ (.cons k₁ v₁ l))
  | trans : KeyPermO l₁ l₂ → KeyPermO l₂ l₃ → KeyPermO l₁ l₃
end

mutual
theorem keyPerm_refl : ∀ (a : JValue), KeyPerm a a
  | .null => .null
  | .bool b => .bool b
  | .num n => .num n
  | .str s => .str s
  | .arr xs => .arr (keyPermL_refl xs)
  | .obj l => .obj (keyPermO_refl l)

theorem keyPermL_refl : ∀ (xs : JList), KeyPermL xs xs
  | .nil => .nil
  | .cons v tl => .cons (keyPerm_refl v) (keyPermL_refl tl)

theorem keyPermO_refl : ∀ (l : JObj), KeyPermO l l
  | .nil => .nil
  | .cons k v tl => .cons k (keyPerm_refl v) (keyPermO_refl tl)
end

theorem memB_iff {k : String} {l : List String} : memB k l = true ↔ k ∈ l := by
  induction l with
  | nil => simp [memB]
  | cons a tl ih => simp [memB, ih, beq_iff_eq, List.mem_cons]

theorem nodupB_iff {l : List String} : nodupB l = true ↔ l.Nodup := by
  induction l with
  | nil => simp [nodupB]
  | cons a tl ih =>
      simp only [nodupB, Bool.and_eq_true, Bool.not_eq_true', List.nodup_cons, ih]
      constructor
      · rintro ⟨hm, hn⟩
        exact ⟨fun hmem => by simp [memB_iff.mpr hmem] at hm, hn⟩
      · rintro ⟨hm, hn⟩
        refine ⟨?_, hn⟩
        cases hmb : memB a tl
        · rfl
        · exact absurd (memB_iff.mp hmb) hm

theorem char_toNat_inj {a b : Char} (h : a.toNat = b.toNat) : a = b := by
  rw [← Char.ofNat_toNat a, ← Char.ofNat_toNat b, h]

theorem charListLeB_cons {x y : Char} {xs ys : List Char} :
    charListLeB (x :: xs) (y :: ys) = true ↔
      x.toNat < y.toNat ∨ (x.toNat = y.toNat ∧ charListLeB xs ys = true) := by
  simp only [charListLeB]
  split_ifs with h₁ h₂
  · simp [h₁]
  · simp only [Bool.false_eq_true, false_iff]
    rintro (h | ⟨h, _⟩) <;> omega
  · have hxy : x.toNat = y.toNat := by omega
    simp [hxy]

theorem charListLeB_total : ∀ (a b : List Char),
    charListLeB a b = true ∨ charListLeB b a = true
  | [], _ => Or.inl rfl
  | _ :: _, [] => Or.inr rfl
  | x :: xs, y :: ys => by
      rcases Nat.lt_trichotomy x.toNat y.toNat with h | h | h
      · exact Or.inl (charListLeB_cons.mpr (Or.inl h))
      · rcases charListLeB_total xs ys with ih | ih
        · exact Or.inl (charListLeB_cons.mpr (Or.inr ⟨h, ih⟩))
        · exact Or.inr (charListLeB_cons.mpr (Or.inr ⟨h.symm, ih⟩))
      · exact Or.inr (charListLeB_cons.mpr (Or.inl h))

theorem charListLeB_trans : ∀ {a b c : List Char},
    charListLeB a b = true → charListLeB b c = true → charListLeB a c = true
  | [], _, _, _, _ => rfl
  | _ :: _, [], _, h, _ => by simp [charListLeB] at h
  | _ :: _, _ :: _, [], _, h => by simp [charListLeB] at h
  | x :: xs, y :: ys, z :: zs, h₁, h₂ => by
      rcases charListLeB_cons.mp h₁ with hx | ⟨hx, hx'⟩ <;>
        rcases charListLeB_cons.mp h₂ with hy | ⟨hy, hy'⟩
      · exact charListLeB_cons.mpr (Or.inl (by omega))
      · exact charListLeB_cons.mpr (Or.inl (by omega))
      · exact charListLeB_cons.mpr (Or.inl (by omega))
      · exact charListLeB_cons.mpr (Or.inr ⟨by omega, charListLeB_trans hx' hy'⟩)

theorem charListLeB_antisymm : ∀ {a b : List Char},
    charListLeB a b = true → charListLeB b a = true → a = b
  | [], [], _, _ => rfl
  | [], _ :: _, _, h => by simp [charListLeB] at h
  | _ :: _, [], h, _ => by simp [charListLeB] at h
  | x :: xs, y :: ys, h₁, h₂ => by
      rcases charListLeB_cons.mp h₁ with hx | ⟨hx, hx'⟩ <;>
        rcases charListLeB_cons.mp h₂ with hy | ⟨hy, hy'⟩ <;>
        try omega
      rw [char_toNat_inj hx, charListLeB_antisymm hx' hy']

theorem keyLeB_antisymm {s t : String} (h₁ : keyLeB s t = true)
    (h₂ : keyLeB t s = true) : s = t := by
  cases s; cases t
  exact congrArg String.mk (charListLeB_antisymm h₁ h₂)

/-- The strict version of the key order, used to make sortedness rigid on
duplicate-free keys. -/
def pairKeyLt (p q : String × String) : Prop := pairKeyLe p q ∧ p.1 ≠ q.1

instance : IsTotal (String × String) pairKeyLe :=
  ⟨fun p q => charListLeB_total p.1.data q.1.data⟩

instance : IsTrans (String × String) pairKeyLe :=
  ⟨fun _ _ _ h₁ h₂ => charListLeB_trans h₁ h₂⟩

instance : IsAntisymm (String × String) pairKeyLt :=
  ⟨fun _ _ h₁ h₂ => absurd (keyLeB_antisymm h₁.1 h₂.1) h₁.2⟩

theorem sortPairs_perm (l : List (String × String)) : (sortPairs l).Perm l :=
  List.perm_insertionSort pairKeyLe l

theorem sortPairs_sorted (l : List (String × String)) :
    (sortPairs l).Sorted pairKeyLe :=
  List.sorted_insertionSort pairKeyLe l

theorem pairwise_lt_of_le_nodup {l : List (String × String)}
    (hs : l.Pairwise pairKeyLe) (hn : (l.map Prod.fst).Nodup) :
    l.Pairwise pairKeyLt := by
  have hne : l.Pairwise (fun p q : String × String => p.1 ≠ q.1) :=
    List.pairwise_map.mp hn
  exact (hs.and hne).imp fun h => ⟨h.1, h.2⟩

/-- Two lists of object entries that are permutations of each other and have
duplicate-free keys sort to the same list (sorting is by key, and keys are
pairwise distinct). -/
theorem sortPairs_eq_of_perm {l₁ l₂ : List (String × String)}
    (hp : l₁.Perm l₂) (hn : (l₁.map Prod.fst).Nodup) :
    sortPairs l₁ = sortPairs l₂ := by
  have hp' : (sortPairs l₁).Perm (sortPairs l₂) :=
    (sortPairs_perm l₁).trans (hp.trans (sortPairs_perm l₂).symm)
  have hn₁ : ((sortPairs l₁).map Prod.fst).Nodup :=
    (((sortPairs_perm l₁).map Prod.fst).nodup_iff).mpr hn
  have hn₂ : ((sortPairs l₂).map Prod.fst).Nodup :=
    ((hp'.map Prod.fst).nodup_iff).mp hn₁
  exact List.eq_of_perm_of_sorted hp'
    (pairwise_lt_of_le_nodup (sortPairs_sorted l₁) hn₁)
    (pairwise_lt_of_le_nodup (sortPairs_sorted l₂) hn₂)

theorem serJO_keys : ∀ (l : JObj), (serJO l).map Prod.fst = objKeys l
  | .nil => rfl
  | .cons k v tl => by simp [serJO, objKeys, serJO_keys tl]

/-! The invariance proof proceeds by mutual induction on the `KeyPerm`
derivation, via the generated mutual recursor.  The three motives carry the
well-formedness of the left value as a hypothesis. -/

abbrev MotiveV (a b : JValue) (_ : KeyPerm a b) : Prop :=
  wfJ a = true → wfJ b = true ∧ serJ a = serJ b

abbrev MotiveL (xs ys : JList) (_ : KeyPermL xs ys) : Prop :=
  wfJL xs = true → wfJL ys = true ∧ serJL xs = serJL ys

abbrev MotiveO (l₁ l₂ : JObj) (_ : KeyPermO l₁ l₂) : Prop :=
  wfJO l₁ = true →
    wfJO l₂ = true ∧ (objKeys l₁).Perm (objKeys l₂) ∧ (serJO l₁).Perm (serJO l₂)

/-- Serialization (and hence the manifest hash) is invariant under permuting
object key order at any nesting depth, for well-formed (duplicate-free-key)
values. -/
theorem keyPerm_ser {a b : JValue} (h : KeyPerm a b) (hw : wfJ a = true) :
    wfJ b = true ∧ serJ a = serJ b := by
  refine @KeyPerm.rec MotiveV MotiveL MotiveO
    ?vnull ?vbool ?vnum ?vstr ?varr ?vobj ?lnil ?lcons ?onil ?ocons ?oswap ?otrans
    a b h hw
  case vnull => exact fun h => ⟨h, rfl⟩
  case vbool => exact fun b h => ⟨h, rfl⟩
  case vnum => exact fun n h => ⟨h, rfl⟩
  case vstr => exact fun s h => ⟨h, rfl⟩
  case varr =>
    intro xs ys _ ih hw
    obtain ⟨hw', hs⟩ := ih hw
    exact ⟨hw', by simp [serJ, hs]⟩
  case vobj =>
    intro l₁ l₂ _ ih hw
    simp only [wfJ, Bool.and_eq_true] at hw
    obtain ⟨hwo₂, hkeys, hpairs⟩ := ih hw.2
    have hnod₁ : (objKeys l₁).Nodup := nodupB_iff.mp hw.1
    refine ⟨?_, ?_⟩
    · simp only [wfJ, Bool.and_eq_true]
      exact ⟨nodupB_iff.mpr (hkeys.nodup_iff.mp hnod₁), hwo₂⟩
    · have hsort : sortPairs (serJO l₁) = sortPairs (serJO l₂) :=
        sortPairs_eq_of_perm hpairs (by rw [serJO_keys]; exact hnod₁)
      simp [serJ, hsort]
  case lnil => exact fun h => ⟨h, rfl⟩
  case lcons =>
    intro v w xs ys _ _ ihv ihl hw
    simp only [wfJL, Bool.and_eq_true] at hw ⊢
    obtain ⟨hwv, hsv⟩ := ihv hw.1
    obtain ⟨hwl, hsl⟩ := ihl hw.2
    exact ⟨⟨hwv, hwl⟩, by simp [serJL, hsv, hsl]⟩
  case onil => exact fun h => ⟨h, .nil, .nil⟩
  case ocons =>
    intro v w l₁ l₂ k _ _ ihv ihl hw
    simp only [wfJO, Bool.and_eq_true] at hw ⊢
    obtain ⟨hwv, hsv⟩ := ihv hw.1
    obtain ⟨hwl, hkeys, hpairs⟩ := ihl hw.2
    refine ⟨⟨hwv, hwl⟩, ?_, ?_⟩
    · simpa [objKeys] using hkeys.cons k
    · have : (k, serJ v) = (k, serJ w) := by rw [hsv]
      simpa [serJO, this] using hpairs.cons (k, serJ w)
  case oswap =>
    intro k₁ k₂ v₁ v₂ l hw
    simp only [wfJO, Bool.and_eq_true] at hw ⊢
    refine ⟨⟨hw.2.1, hw.1, hw.2.2⟩, ?_, ?_⟩
    · simpa [objKeys] using List.Perm.swap k₂ k₁ (objKeys l)
    · simpa [serJO] using List.Perm.swap (k₂, serJ v₂) (k₁, serJ v₁) (serJO l)
  case otrans =>
    intro l₁ l₂ l₃ _ _ ih₁ ih₂ hw
    obtain ⟨hw₂, hk₁, hp₁⟩ := ih₁ hw
    obtain ⟨hw₃, hk₂, hp₂⟩ := ih₂ hw₂
    exact ⟨hw₃, hk₁.trans hk₂, hp₁.trans hp₂⟩

/-- Stripping the top-level meta keys preserves the key-permutation
relation. -/
theorem keyPermO_strip {l₁ l₂ : JObj} (h : KeyPermO l₁ l₂) :
    KeyPermO (stripMeta l₁) (stripMeta l₂) := by
  refine @KeyPermO.rec (fun _ _ _ => True) (fun _ _ _ => True)
    (fun l₁ l₂ _ => KeyPermO (stripMeta l₁) (stripMeta l₂))
    ?_ ?_ ?_ ?_ ?_ ?_ ?_ ?_ ?_ ?_ ?_ ?_ l₁ l₂ h
  · exact trivial
  · exact fun _ => trivial
  · exact fun _ => trivial
  · exact fun _ => trivial
  · exact fun _ _ => trivial
  · exact fun _ _ => trivial
  · exact trivial
  · exact fun _ _ _ _ => trivial
  · exact .nil
  · intro v w l₁ l₂ k hv _ _ ih
    cases hmk : isMetaKey k <;> simp only [stripMeta, hmk] <;>
      [exact .cons k hv ih; exact ih]
  · intro k₁ k₂ v₁ v₂ l
    cases h₁ : isMetaKey k₁ <;> cases h₂ : isMetaKey k₂ <;>
      simp only [stripMeta, h₁, h₂, if_true, if_false, Bool.false_eq_true] <;>
      first
        | exact keyPermO_refl _
        | exact .swap k₁ k₂ v₁ v₂ (stripMeta l)
  · exact fun _ _ ih₁ ih₂ => ih₁.trans ih₂

theorem stripMeta_keys_sublist : ∀ (l : JObj),
    (objKeys (stripMeta l)).Sublist (objKeys l)
  | .nil => .refl _
  | .cons k v tl => by
      cases hmk : isMetaKey k <;> simp only [stripMeta, hmk, objKeys]
      · exact (stripMeta_keys_sublist tl).cons₂ k
      · exact (stripMeta_keys_sublist tl).cons k

theorem wfJO_strip : ∀ {l : JObj}, wfJO l = true → wfJO (stripMeta l) = true := by
  intro l
  induction l using stripMeta.induct with
  | case1 => exact id
  | case2 k v tl hmk ih =>
      intro h
      simp only [wfJO, Bool.and_eq_true] at h
      simpa [stripMeta, hmk] using ih h.2
  | case3 k v tl hmk ih =>
      intro h
      simp only [wfJO, Bool.and_eq_true] at h
      simp only [stripMeta, hmk, if_false, Bool.false_eq_true, wfJO,
        Bool.and_eq_true]
      exact ⟨h.1, ih h.2⟩

theorem wfJ_strip_obj {m : JObj} (h : wfJ (.obj m) = true) :
    wfJ (.obj (stripMeta m)) = true := by
  simp only [wfJ, Bool.and_eq_true] at h ⊢
  exact ⟨nodupB_iff.mpr ((nodupB_iff.mp h.1).sublist (stripMeta_keys_sublist m)),
    wfJO_strip h.2⟩

/-! ## The hex digest format -/

def lowercaseHexDigits : List Char := "0123456789abcdef".data

/-- A 64-character lowercase hexadecimal string. -/
def IsHex64 (s : String) : Prop :=
  s.length = 64 ∧ ∀ c ∈ s.data, c ∈ lowercaseHexDigits

theorem hexChar_mem {n : Nat} (h : n < 16) : hexChar n ∈ lowercaseHexDigits := by
  interval_cases n <;> decide

theorem byteToHex_mem {b : Nat} {c : Char} (hb : b < 256)
    (hc : c ∈ byteToHex b) : c ∈ lowercaseHexDigits := by
  simp only [byteToHex, List.mem_cons, List.mem_singleton, List.not_mem_nil,
    or_false] at hc
  rcases hc with rfl | rfl
  · exact hexChar_mem (by omega)
  · exact hexChar_mem (Nat.mod_lt _ (by omega))

theorem wordBytes_lt {w x : Nat} (hx : x ∈ wordBytes w) : x < 256 := by
  simp only [wordBytes, List.mem_cons, List.not_mem_nil, or_false] at hx
  rcases hx with rfl | rfl | rfl | rfl <;> exact Nat.mod_lt _ (by omega)

theorem sha256_length (msg : List Nat) : (sha256 msg).length = 32 := rfl

theorem sha256_lt (msg : List Nat) : ∀ b ∈ sha256 msg, b < 256 := by
  intro b hb
  simp only [sha256, stateBytes, List.mem_append] at hb
  rcases hb with ((((((h | h) | h) | h) | h) | h) | h) | h <;> exact wordBytes_lt h

theorem flatMap_byteToHex_length (l : List Nat) :
    (l.flatMap byteToHex).length = 2 * l.length := by
  induction l with
  | nil => rfl
  | cons b tl ih => simp [List.flatMap_cons, byteToHex, ih]; omega

/-- Every SHA-256 hexdigest is a 64-character lowercase hex string. -/
theorem sha256Hex_isHex64 (msg : List Nat) : IsHex64 (sha256Hex msg) := by
  constructor
  · show ((sha256 msg).flatMap byteToHex).length = 64
    rw [flatMap_byteToHex_length, sha256_length]
  · intro c hc
    have hc' : c ∈ (sha256 msg).flatMap byteToHex := hc
    obtain ⟨b, hb, hcb⟩ := List.mem_flatMap.mp hc'
    exact byteToHex_mem (sha256_lt msg b hb) hcb

/-! ## Pigeonhole: SHA-256 collisions exist among single-field manifests -/

def bytesVal : List Nat → Nat
  | [] => 0
  | b :: tl => b + 256 * bytesVal tl

theorem bytesVal_lt : ∀ {l : List Nat}, (∀ b ∈ l, b < 256) →
    bytesVal l < 256 ^ l.length := by
  intro l
  induction l with
  | nil => intro; simp [bytesVal]
  | cons b tl ih =>
      intro h
      have hb : b < 256 := h b (List.mem_cons_self b tl)
      have htl : bytesVal tl < 256 ^ tl.length :=
        ih fun x hx => h x (List.mem_cons_of_mem b hx)
      calc b + 256 * bytesVal tl < 256 + 256 * bytesVal tl := by omega
        _ = 256 * (bytesVal tl + 1) := by ring
        _ ≤ 256 * 256 ^ tl.length := Nat.mul_le_mul_left 256 htl
        _ = 256 ^ (b :: tl).length := by rw [List.length_cons, pow_succ, mul_comm]

theorem bytesVal_inj : ∀ {l₁ l₂ : List Nat}, l₁.length = l₂.length →
    (∀ b ∈ l₁, b < 256) → (∀ b ∈ l₂, b < 256) →
    bytesVal l₁ = bytesVal l₂ → l₁ = l₂ := by
  intro l₁
  induction l₁ with
  | nil => intro l₂ hlen _ _ _; cases l₂ <;> simp_all
  | cons b₁ tl₁ ih =>
      intro l₂ hlen h₁ h₂ hv
      cases l₂ with
      | nil => simp at hlen
      | cons b₂ tl₂ =>
          have hb₁ : b₁ < 256 := h₁ b₁ (List.mem_cons_self _ _)
          have hb₂ : b₂ < 256 := h₂ b₂ (List.mem_cons_self _ _)
          simp only [bytesVal] at hv
          have hbeq : b₁ = b₂ := by omega
          have hveq : bytesVal tl₁ = bytesVal tl₂ := by omega
          have htl : tl₁ = tl₂ :=
            ih (by simpa using hlen)
              (fun x hx => h₁ x (List.mem_cons_of_mem _ hx))
              (fun x hx => h₂ x (List.mem_cons_of_mem _ hx)) hveq
          rw [hbeq, htl]

/-- The family of manifests `\x7b"a": n\x7d`, pairwise differing in the value
of the single field `"a"`. -/
def natManifest (n : Nat) : JObj := .cons "a" (.num (Int.ofNat n)) .nil

def manifestDigest (n : Nat) : List Nat :=
  sha256 (utf8 (serJ (.obj (stripMeta (natManifest n)))))

def hashFin (n : Nat) : Fin (256 ^ 32) :=
  ⟨bytesVal (manifestDigest n), by
    have h := bytesVal_lt (sha256_lt (utf8 (serJ (.obj (stripMeta (natManifest n))))))
    rwa [sha256_length] at h⟩

/-- By pigeonhole, two distinct manifests over the single field `"a"` share a
manifest hash: SHA-256 maps infinitely many inputs into finitely many
digests. -/
theorem manifest_hash_collision_exists : ∃ n m : Nat, n ≠ m ∧
    compute_manifest_hash (natManifest n) = compute_manifest_hash (natManifest m) := by
  obtain ⟨n, m, hne, heq⟩ := Finite.exists_ne_map_eq_of_infinite hashFin
  refine ⟨n, m, hne, ?_⟩
  have hv := congrArg Fin.val heq
  simp only [hashFin] at hv
  have hlen : (manifestDigest n).length = (manifestDigest m).length := by
    simp only [manifestDigest, sha256_length]
  have hb₁ : ∀ b ∈ manifestDigest n, b < 256 := by
    simp only [manifestDigest]; exact sha256_lt _
  have hb₂ : ∀ b ∈ manifestDigest m, b < 256 := by
    simp only [manifestDigest]; exact sha256_lt _
  have hd : manifestDigest n = manifestDigest m := bytesVal_inj hlen hb₁ hb₂ hv
  simp only [manifestDigest] at hd
  simp only [compute_manifest_hash, sha256HexOfString, sha256Hex]
  rw [hd]

/-! ## Claims C3 and C4 -/

/-- C3: for every manifest dictionary `M` (well-formed, i.e. duplicate-free
keys at every nesting depth, as Python dicts are) and every permutation of its
key order at any nesting depth, `compute_manifest_hash` returns the same
value, and that value is a 64-character lowercase hexadecimal string. -/
theorem C3_manifest_hash_key_order_invariant {m m' : JObj}
    (hperm : KeyPermO m m') (hwf : wfJ (.obj m) = true) :
    compute_manifest_hash m = compute_manifest_hash m' ∧
      IsHex64 (compute_manifest_hash m) := by
  constructor
  · have h := keyPerm_ser (.obj (keyPermO_strip hperm)) (wfJ_strip_obj hwf)
    exact congrArg sha256HexOfString h.2
  · exact sha256Hex_isHex64 _

/-- Witness for C3 at the concrete manifest `\x7b"b": 2, "a": 1\x7d` and its
key-swapped form. -/
theorem C3_manifest_hash_key_order_invariant_witness :
    KeyPermO (.cons "b" (.num 2) (.cons "a" (.num 1) .nil))
      (.cons "a" (.num 1) (.cons "b" (.num 2) .nil)) ∧
    wfJ (.obj (.cons "b" (.num 2) (.cons "a" (.num 1) .nil))) = true ∧
    (compute_manifest_hash (.cons "b" (.num 2) (.cons "a" (.num 1) .nil)) =
        compute_manifest_hash (.cons "a" (.num 1) (.cons "b" (.num 2) .nil)) ∧
      IsHex64 (compute_manifest_hash (.cons "b" (.num 2) (.cons "a" (.num 1) .nil)))) :=
  ⟨.swap "b" "a" (.num 2) (.num 1) .nil, by decide,
    C3_manifest_hash_key_order_invariant (.swap "b" "a" (.num 2) (.num 1) .nil)
      (by decide)⟩

/-- C4 counterexample: the claim "manifests differing in the value of any
single field hash differently" is false.  (1) Concretely, two manifests that
differ only in the value of the single top-level field `"version"` — one of
the stripped meta keys — hash identically.  (2) Even for the non-meta field
`"a"`, two distinct values with equal hashes exist by pigeonhole. -/
theorem C4_counterexample :
    (JValue.str "v1" ≠ JValue.str "v2" ∧
      compute_manifest_hash (.cons "a" (.num 1) (.cons "version" (.str "v1") .nil)) =
        compute_manifest_hash (.cons "a" (.num 1) (.cons "version" (.str "v2") .nil))) ∧
    (∃ n m : Nat, n ≠ m ∧
      compute_manifest_hash (natManifest n) = compute_manifest_hash (natManifest m)) := by
  refine ⟨⟨?_, ?_⟩, manifest_hash_collision_exists⟩
  · intro h
    injection h with h'
    exact absurd h' (by decide)
  · exact congrArg (fun l => sha256HexOfString (serJ (.obj l))) rfl

set_option maxRecDepth 10000 in
/-- C4 amended: single-field perturbations in *non-meta* fields are verified
to change the hash via targeted concrete perturbations, here a string-valued
field and an integer-valued field of a representative manifest. -/
theorem C4_amended_targeted_perturbations_change_hash :
    compute_manifest_hash
        (.cons "purpose" (.str "x") (.cons "sprint_id" (.str "s1") .nil)) ≠
      compute_manifest_hash
        (.cons "purpose" (.str "y") (.cons "sprint_id" (.str "s1") .nil)) ∧
    compute_manifest_hash (.cons "risk" (.num 1) .nil) ≠
      compute_manifest_hash (.cons "risk" (.num 2) .nil) := by
  constructor <;> decide

/-! ## The deterministic ledger (`multiai/core/deterministic_ledger.py`)

The SQLite tables become lists of rows; each method is a state-passing
function, and the `IntegrityError` raised on a duplicate write becomes
`Except.error`. -/

structure SprintRow where
  sprint_id : String
  manifest_hash : String
  digital_signature : Option String
  created_by : String
  status : String
deriving DecidableEq, Repr

structure ArtifactRow where
  sprint_id : String
  artifact_id : String
  expected_hash : String
  actual_hash : Option String
  status : String
  file_path : String
deriving DecidableEq, Repr

structure AuditRow where
  operation : String
  entity_type : String
  entity_id : String
  new_hash : Option String
  performed_by : String
deriving DecidableEq, Repr

structure LedgerState where
  sprint_ledger : List SprintRow
  artifact_ledger : List ArtifactRow
  audit_trail : List AuditRow
deriving DecidableEq, Repr

/-- `DeterministicLedger.record_sprint_manifest`: `INSERT OR IGNORE` under
`UNIQUE(sprint_id, manifest_hash)` — a pre-existing row for the pair makes
`rowcount` zero, which raises `sqlite3.IntegrityError` before the audit
insert; otherwise the row and one audit record are inserted and the row id is
returned. -/
def record_sprint_manifest (st : LedgerState) (sprint_id manifest_hash : String)
    (signature : Option String) (created_by : String) :
    Except String (LedgerState × Nat) :=
  if st.sprint_ledger.any
      (fun r => r.sprint_id == sprint_id && r.manifest_hash == manifest_hash) then
    .error "Duplicate sprint_id + manifest_hash"
  else
    .ok ({ st with
            sprint_ledger := st.sprint_ledger ++
              [⟨sprint_id, manifest_hash, signature, created_by, "created"⟩],
            audit_trail := st.audit_trail ++
              [⟨"CREATE", "sprint_manifest", sprint_id, some manifest_hash, created_by⟩] },
          st.sprint_ledger.length + 1)

/-- `DeterministicLedger.update_artifact_hash`: update the matching artifact
row and append one audit record (`new_hash` falls back to `"error"` when the
actual hash is `None`). -/
def update_artifact_hash (st : LedgerState) (sprint_id artifact_id : String)
    (actual_hash : Option String) (validation_result : String) : LedgerState :=
  { st with
    artifact_ledger := st.artifact_ledger.map fun r =>
      if r.sprint_id == sprint_id && r.artifact_id == artifact_id then
        { r with actual_hash := actual_hash, status := validation_result }
      else r,
    audit_trail := st.audit_trail ++
      [⟨"UPDATE", "artifact", sprint_id ++ ":" ++ artifact_id,
        some (actual_hash.getD "error"), "system"⟩] }

/-- One classified detail row of `validate_sprint_artifacts`:
`(artifact_id, status)`. -/
def classifyRow (r : ArtifactRow) : String × String :=
  match r.actual_hash with
  | none => (r.artifact_id, "pending")
  | some a => (r.artifact_id, if a == r.expected_hash then "validated" else "mismatch")

structure SprintValidationResult where
  sprint_id : String
  total_artifacts : Nat
  validated_artifacts : Nat
  mismatched_artifacts : Nat
  pending_artifacts : Nat
  details : List (String × String)
deriving DecidableEq, Repr

def countStatus (rows : List ArtifactRow) (s : String) : Nat :=
  (rows.filter fun r => (classifyRow r).2 == s).length

/-- `DeterministicLedger.validate_sprint_artifacts`: read the sprint's
artifact rows, classify each as pending / validated / mismatch, and set the
parent `sprint_ledger` status to `"validated"` iff the mismatch count is zero,
else `"hash_mismatch"`. -/
def validate_sprint_artifacts (st : LedgerState) (sprint_id : String) :
    LedgerState × SprintValidationResult :=
  let rows := st.artifact_ledger.filter fun r => r.sprint_id == sprint_id
  let mismatched := countStatus rows "mismatch"
  let newStatus := if mismatched = 0 then "validated" else "hash_mismatch"
  ({ st with
      sprint_ledger := st.sprint_ledger.map fun r =>
        if r.sprint_id == sprint_id then { r with status := newStatus } else r },
    ⟨sprint_id, rows.length, countStatus rows "validated", mismatched,
      countStatus rows "pending", rows.map classifyRow⟩)

/-! ## The signed ledger writer (`multiai/core/ledger_signed.py`)

`write_manifest_to_ledger` inserts into the `ledger_entries` table, which has
*no* uniqueness constraint.  Declaration-order serialization
(`json.dumps(manifest)`, default separators) is embedded as `serJD`; the
ECDSA signing step is abstracted as an opaque function parameter (its output
is stored but never branches the control flow), and the float `time.time()`
timestamp is modelled as an opaque `Nat`. -/

mutual
def serJD : JValue → String
  | .null => "null"
  | .bool true => "true"
  | .bool false => "false"
  | .num n => toString n
  | .str s => jsonStr s
  | .arr xs => "[" ++ String.intercalate ", " (serJDL xs) ++ "]"
  | .obj l => "\x7b" ++ String.intercalate ", " (serJDO l) ++ "\x7d"

def serJDL : JList → List String
  | .nil => []
  | .cons v tl => serJD v :: serJDL tl

def serJDO : JObj → List String
  | .nil => []
  | .cons k v tl => (jsonStr k ++ ": " ++ serJD v) :: serJDO tl
end

def objGet : JObj → String → Option JValue
  | .nil, _ => none
  | .cons k v tl, key => if k == key then some v else objGet tl key

/-- `manifest.get("sprint_id", "unknown")` (string-valued in every manifest
this repository builds). -/
def sprintIdOf (m : JObj) : String :=
  match objGet m "sprint_id" with
  | some (.str s) => s
  | _ => "unknown"

structure SignedEntry where
  timestamp : Nat
  sprint_id : String
  manifest_hash : String
  manifest_data : String
  signature : String
  public_key_fingerprint : String
deriving DecidableEq, Repr

structure SignedWriteResult where
  ledger_id : Nat
  sprint_id : String
  manifest_hash : String
  signature : String
  public_key_fingerprint : String
  timestamp : Nat
deriving DecidableEq, Repr

/-- The `json.dumps(entry_data, sort_keys=True)` payload that gets signed
(keys in sorted order: manifest_data, manifest_hash, sprint_id, timestamp,
version). -/
def dataToSign (ts : Nat) (sid mh md : String) : String :=
  "\x7b\"manifest_data\": " ++ jsonStr md ++ ", \"manifest_hash\": " ++ jsonStr mh ++
    ", \"sprint_id\": " ++ jsonStr sid ++ ", \"timestamp\": " ++ toString ts ++
    ", \"version\": \"v1\"\x7d"

/-- `SignedLedgerWriter.write_manifest_to_ledger`: computes the manifest hash
with the deterministic validator, signs the entry payload, and inserts a row
unconditionally — there is no `(sprint_id, manifest_hash)` uniqueness check
on the `ledger_entries` table and no duplicate error path. -/
def write_manifest_to_ledger (entries : List SignedEntry) (m : JObj) (ts : Nat)
    (sign : String → String) (fp : String) :
    List SignedEntry × SignedWriteResult :=
  let manifest_hash := compute_manifest_hash m
  let manifest_data := serJD (.obj m)
  let sid := sprintIdOf m
  let signature := sign (dataToSign ts sid manifest_hash manifest_data)
  (entries ++ [⟨ts, sid, manifest_hash, manifest_data, signature, fp⟩],
   ⟨entries.length + 1, sid, manifest_hash, signature, fp, ts⟩)

/-! ## The integrity validator (`multiai/core/deterministic_validator.py`)

`validate_artifact` over an explicit file system (a map from full path to
text content; a missing path is Python's `FileNotFoundError`).  The
`Artifact` class of `multiai/schema/enhanced_manifest.py` defines **no**
`calculate_expected_hash` method, so the fallback branch raises
`AttributeError`; both exception paths land in the `except` handler. -/

structure PyArtifact where
  artifact_id : String
  path : String
  expected_sha256 : Option String
deriving DecidableEq, Repr

structure ValidationResult where
  artifact_id : String
  expected_sha256 : Option String
  actual_sha256 : Option String
  validation_passed : Bool
  error : Option String
deriving DecidableEq, Repr

/-- Python truthiness of an optional string: `None` and `""` are falsy. -/
def truthyStr : Option String → Bool
  | some s => !(s == "")
  | none => false

def attrErrorMsg : String :=
  "Artifact object has no attribute calculate_expected_hash"

/-- `DeterministicValidator.validate_artifact`.  The `try` body computes the
actual hash (from the in-memory content if *truthy*, else from the file at
`workdir/artifact.path`), resolves the expected hash as
`artifact.expected_sha256 or artifact.calculate_expected_hash()` — the
fallback raising `AttributeError` since the method does not exist — records
the outcome through the ledger, and returns a result dict; the `except`
handler records `"error: <msg>"` with a `None` hash and returns an error
result. -/
def validate_artifact (fs : String → Option String) (workdir : String)
    (st : LedgerState) (artifact : PyArtifact) (sprint_id : String)
    (actual_content : Option String) : LedgerState × ValidationResult :=
  let fullPath := workdir ++ "/" ++ artifact.path
  let actualRes : Except String String :=
    if truthyStr actual_content then
      .ok (sha256HexOfString (actual_content.getD ""))
    else
      match fs fullPath with
      | some content => .ok (sha256HexOfString content)
      | none => .error ("No such file or directory: " ++ fullPath)
  let expectedRes : Except String String :=
    if truthyStr artifact.expected_sha256 then
      .ok (artifact.expected_sha256.getD "")
    else
      .error attrErrorMsg
  match actualRes with
  | .error e =>
      (update_artifact_hash st sprint_id artifact.artifact_id none ("error: " ++ e),
       ⟨artifact.artifact_id, none, none, false, some e⟩)
  | .ok actual_hash =>
      match expectedRes with
      | .error e =>
          (update_artifact_hash st sprint_id artifact.artifact_id none ("error: " ++ e),
           ⟨artifact.artifact_id, none, none, false, some e⟩)
      | .ok expected_hash =>
          (update_artifact_hash st sprint_id artifact.artifact_id (some actual_hash)
            (if actual_hash == expected_hash then "validated" else "mismatch"),
           ⟨artifact.artifact_id, some expected_hash, some actual_hash,
             actual_hash == expected_hash, none⟩)

/-! ## The manifest model (`multiai/schema/enhanced_manifest.py`, second
`SprintManifest` class)

`validate_dependencies` / `get_execution_order` with their recursive DFS
helpers.  Recursion is fuelled: every call consumes one unit, and the fuel
passed in is far larger than any reachable recursion depth for the inputs the
theorems evaluate, so the embedding agrees with the Python recursion there.
The visited / recursion-stack sets are threaded explicitly. -/

def graphGet (g : List (String × List String)) (k : String) : List String :=
  match g.find? (fun p => p.1 == k) with
  | some p => p.2
  | none => []

mutual
/-- `has_cycle(artifact_id)`: returns the flag plus the updated
`(visited, recursion_stack)` pair.  On the `True` paths the stack is left as
is (the Python early-returns without removing), on the `False` path the node
is removed from the stack. -/
def hasCycleAux (g : List (String × List String)) :
    Nat → List String → List String → String → Bool × List String × List String
  | 0, v, s, _ => (true, v, s)
  | fuel + 1, v, s, aid =>
      if s.contains aid then (true, v, s)
      else if v.contains aid then (false, v, s)
      else
        match hasCycleDeps g fuel (aid :: v) (aid :: s) (graphGet g aid) with
        | (true, v', s') => (true, v', s')
        | (false, v', s') => (false, v', s'.erase aid)

/-- The `for dep in self.dependency_graph.get(artifact_id, [])` loop inside
`has_cycle`. -/
def hasCycleDeps (g : List (String × List String)) :
    Nat → List String → List String → List String → Bool × List String × List String
  | 0, v, s, _ => (true, v, s)
  | _ + 1, v, s, [] => (false, v, s)
  | fuel + 1, v, s, d :: ds =>
      match hasCycleAux g fuel v s d with
      | (true, v', s') => (true, v', s')
      | (false, v', s') => hasCycleDeps g fuel v' s' ds
end

def dfsFuel : Nat := 1000

/-- `SprintManifest.validate_dependencies`: run `has_cycle` over the
artifacts in declaration order, sharing the visited set; `False` as soon as
any cycle is found. -/
def validateDepsLoop (g : List (String × List String)) :
    List String → List String → List String → Bool
  | [], _, _ => true
  | aid :: rest, v, s =>
      match hasCycleAux g dfsFuel v s aid with
      | (true, _, _) => false
      | (false, v', s') => validateDepsLoop g rest v' s'

def validate_dependencies (artifacts : List String)
    (g : List (String × List String)) : Bool :=
  validateDepsLoop g artifacts [] []

mutual
/-- `visit(artifact_id)` of `get_execution_order`: post-order append of the
node after visiting its declared dependencies. -/
def visitAux (g : List (String × List String)) :
    Nat → List String → List String → String → List String × List String
  | 0, v, o, _ => (v, o)
  | fuel + 1, v, o, aid =>
      if v.contains aid then (v, o)
      else
        match visitDeps g fuel (aid :: v) o (graphGet g aid) with
        | (v', o') => (v', o' ++ [aid])

def visitDeps (g : List (String × List String)) :
    Nat → List String → List String → List String → List String × List String
  | 0, v, o, _ => (v, o)
  | _ + 1, v, o, [] => (v, o)
  | fuel + 1, v, o, d :: ds =>
      match visitAux g fuel v o d with
      | (v', o') => visitDeps g fuel v' o' ds
end

/-- `SprintManifest.get_execution_order`: raises `ValueError` on a cyclic
graph, otherwise DFS-visits the artifacts in declaration order and returns
`list(reversed(order))`. -/
def visitLoop (g : List (String × List String)) :
    List String → List String → List String → List String × List String
  | [], v, o => (v, o)
  | aid :: rest, v, o =>
      match visitAux g dfsFuel v o aid with
      | (v', o') => visitLoop g rest v' o'

def get_execution_order (artifacts : List String)
    (g : List (String × List String)) : Except String (List String) :=
  if validate_dependencies artifacts g then
    .ok (visitLoop g artifacts [] []).2.reverse
  else
    .error "Cyclic dependencies detected"

/-! ## The ledger signer (`multiai/core/ledger_sign.py`)

`LedgerSigner._load_or_generate_keys` reads `MULTIAI_PRIV_PEM` /
`MULTIAI_PUB_PEM`; PEM parsing of supplied material is abstracted as a
predicate.  When the pair is not fully supplied, development keys are
generated and saved to `keys/` on disk — there is no development-mode flag
anywhere in the class. -/

inductive KeyOutcome where
  | loaded
  | loadError
  | generatedDev
deriving DecidableEq, Repr

def load_or_generate_keys (priv_pem pub_pem : Option String)
    (loadOk : String → String → Bool) : KeyOutcome :=
  if truthyStr priv_pem && truthyStr pub_pem then
    if loadOk (priv_pem.getD "") (pub_pem.getD "") then .loaded else .loadError
  else
    .generatedDev

/-! ## Claim C1 -/

/-- C1 (evidence of the code bug): on the spec's own example — artifacts
`[A, B]`, dependency graph `\x7bA: [B], B: []\x7d` — `validate_dependencies`
is true, but `get_execution_order` returns `[A, B]`, not the claimed `[B, A]`:
the artifact `A` comes *before* its dependency `B`, because the code reverses
a post-order DFS that is already in dependencies-first order. -/
theorem C1_execution_order_failing_input :
    validate_dependencies ["A", "B"] [("A", ["B"]), ("B", [])] = true ∧
    get_execution_order ["A", "B"] [("A", ["B"]), ("B", [])] = .ok ["A", "B"] ∧
    get_execution_order ["A", "B"] [("A", ["B"]), ("B", [])] ≠ .ok ["B", "A"] := by
  refine ⟨rfl, rfl, ?_⟩
  intro hcon
  rw [show get_execution_order ["A", "B"] [("A", ["B"]), ("B", [])] =
    .ok ["A", "B"] from rfl] at hcon
  exact absurd (Except.ok.inj hcon) (by decide)

/-! ## Claim C2 -/

/-- C2 amended: `DeterministicLedger.record_sprint_manifest` enforces the
idempotency gate.  Starting from any state with no entry for
`(sprint_id, manifest_hash)`, the first write succeeds, the second write of
the same pair signals the duplicate error (returning no new state, so the
stored entries are untouched), and exactly one entry for the pair is
stored. -/
theorem C2_record_sprint_manifest_duplicate_gate
    (st : LedgerState) (sid h : String) (sig sig' : Option String) (cb cb' : String)
    (hfresh : st.sprint_ledger.any
      (fun r => r.sprint_id == sid && r.manifest_hash == h) = false) :
    ∃ st₁ id₁, record_sprint_manifest st sid h sig cb = .ok (st₁, id₁) ∧
      record_sprint_manifest st₁ sid h sig' cb' =
        .error "Duplicate sprint_id + manifest_hash" ∧
      (st₁.sprint_ledger.filter
        (fun r => r.sprint_id == sid && r.manifest_hash == h)).length = 1 := by
  have hok : record_sprint_manifest st sid h sig cb =
      .ok ({ st with
              sprint_ledger := st.sprint_ledger ++ [⟨sid, h, sig, cb, "created"⟩],
              audit_trail := st.audit_trail ++
                [⟨"CREATE", "sprint_manifest", sid, some h, cb⟩] },
            st.sprint_ledger.length + 1) := by
    simp [record_sprint_manifest, hfresh]
  refine ⟨_, _, hok, ?_, ?_⟩
  · simp [record_sprint_manifest, List.any_append, hfresh]
  · rw [List.filter_append]
    have h₀ : st.sprint_ledger.filter
        (fun r => r.sprint_id == sid && r.manifest_hash == h) = [] := by
      rw [List.filter_eq_nil_iff]
      intro r hr hmatch
      have hany : st.sprint_ledger.any
          (fun r => r.sprint_id == sid && r.manifest_hash == h) = true :=
        List.any_eq_true.mpr ⟨r, hr, hmatch⟩
      rw [hfresh] at hany
      exact Bool.false_ne_true hany
    simp [h₀]

/-- Witness for C2 at the empty ledger state. -/
theorem C2_record_sprint_manifest_duplicate_gate_witness :
    (LedgerState.mk [] [] []).sprint_ledger.any
      (fun r => r.sprint_id == "s1" && r.manifest_hash == "h1") = false ∧
    ∃ st₁ id₁,
      record_sprint_manifest ⟨[], [], []⟩ "s1" "h1" none "tester" = .ok (st₁, id₁) ∧
      record_sprint_manifest st₁ "s1" "h1" none "tester" =
        .error "Duplicate sprint_id + manifest_hash" ∧
      (st₁.sprint_ledger.filter
        (fun r => r.sprint_id == "s1" && r.manifest_hash == "h1")).length = 1 :=
  ⟨by decide,
   C2_record_sprint_manifest_duplicate_gate ⟨[], [], []⟩ "s1" "h1" none none
     "tester" "tester" (by decide)⟩

set_option maxRecDepth 10000 in
/-- C2 counterexample: `SignedLedgerWriter.write_manifest_to_ledger` has no
duplicate gate.  Writing the byte-identical manifest `\x7b"sprint_id": "s1"\x7d`
twice stores two entries for the same `(sprint_id, manifest_hash)` pair, and
no error is signalled (the function has no error path at all). -/
theorem C2_counterexample :
    ((write_manifest_to_ledger
        (write_manifest_to_ledger [] (.cons "sprint_id" (.str "s1") .nil) 0
          (fun _ => "sig") "fp").1
        (.cons "sprint_id" (.str "s1") .nil) 0 (fun _ => "sig") "fp").1.filter
      (fun e => e.sprint_id == "s1" &&
        e.manifest_hash ==
          compute_manifest_hash (.cons "sprint_id" (.str "s1") .nil))).length = 2 := by
  decide

/-! ## Claim C6 -/

theorem classify_snd_mismatch_iff (r : ArtifactRow) :
    (classifyRow r).2 = "mismatch" ↔
      ∃ a, r.actual_hash = some a ∧ a ≠ r.expected_hash := by
  cases hr : r.actual_hash with
  | none => simp [classifyRow, hr]
  | some a =>
      simp only [classifyRow, hr]
      split_ifs with hae
      · rw [beq_iff_eq] at hae
        simp [hae]
      · rw [beq_iff_eq] at hae
        simp [hae]

/-- The mismatch count of a sprint is zero exactly when every artifact row
*that has a recorded actual hash* has it equal to its expected hash. -/
theorem countStatus_mismatch_zero_iff (rows : List ArtifactRow) :
    countStatus rows "mismatch" = 0 ↔
      ∀ r ∈ rows, ∀ a, r.actual_hash = some a → a = r.expected_hash := by
  simp only [countStatus, List.length_eq_zero, List.filter_eq_nil_iff]
  constructor
  · intro h r hr a ha
    by_contra hne
    exact h r hr (by rw [beq_iff_eq]; exact (classify_snd_mismatch_iff r).mpr ⟨a, ha, hne⟩)
  · intro h r hr hb
    rw [beq_iff_eq] at hb
    obtain ⟨a, ha, hne⟩ := (classify_snd_mismatch_iff r).mp hb
    exact hne (h r hr a ha)

theorem classify_trichotomy (r : ArtifactRow) :
    ((classifyRow r).2 = "pending" ∧ (classifyRow r).2 ≠ "validated" ∧
      (classifyRow r).2 ≠ "mismatch") ∨
    ((classifyRow r).2 = "validated" ∧ (classifyRow r).2 ≠ "pending" ∧
      (classifyRow r).2 ≠ "mismatch") ∨
    ((classifyRow r).2 = "mismatch" ∧ (classifyRow r).2 ≠ "pending" ∧
      (classifyRow r).2 ≠ "validated") := by
  cases hr : r.actual_hash with
  | none => left; simp [classifyRow, hr]
  | some a =>
      simp only [classifyRow, hr]
      split_ifs with hae
      · right; left; simp
      · right; right; simp

/-- Every artifact row of a sprint is counted in exactly one of the
validated / mismatched / pending buckets. -/
theorem countStatus_partition (rows : List ArtifactRow) :
    countStatus rows "validated" + countStatus rows "mismatch" +
      countStatus rows "pending" = rows.length := by
  induction rows with
  | nil => rfl
  | cons r tl ih =>
      have tri := classify_trichotomy r
      simp only [countStatus, List.filter_cons] at ih ⊢
      rcases tri with ⟨h₁, h₂, h₃⟩ | ⟨h₁, h₂, h₃⟩ | ⟨h₁, h₂, h₃⟩ <;>
        simp only [h₁, beq_iff_eq, if_true, if_false, List.length_cons] <;>
        split_ifs <;> simp_all <;> omega

/-- C6 amended: `validate_sprint_artifacts` classifies each artifact row of
the sprint as pending when it has no actual hash, validated when the actual
hash equals the expected hash and mismatch otherwise (the three buckets
partition the rows); it reports `mismatched == 0` iff every artifact row
**with a recorded actual hash** has it equal to its expected hash (a pending
row never counts as a mismatch); and the parent manifest rows get status
`"validated"` exactly when `mismatched == 0`, else `"hash_mismatch"`. -/
theorem C6_validate_sprint_artifacts_gate (st : LedgerState) (sid : String) :
    (validate_sprint_artifacts st sid).2.details =
      ((st.artifact_ledger.filter fun r => r.sprint_id == sid).map classifyRow) ∧
    (∀ r ∈ st.artifact_ledger.filter fun r => r.sprint_id == sid,
      (r.actual_hash = none → (classifyRow r).2 = "pending") ∧
      (∀ a, r.actual_hash = some a →
        (classifyRow r).2 = if a = r.expected_hash then "validated" else "mismatch")) ∧
    ((validate_sprint_artifacts st sid).2.validated_artifacts +
        (validate_sprint_artifacts st sid).2.mismatched_artifacts +
        (validate_sprint_artifacts st sid).2.pending_artifacts =
      (validate_sprint_artifacts st sid).2.total_artifacts) ∧
    ((validate_sprint_artifacts st sid).2.mismatched_artifacts = 0 ↔
      ∀ r ∈ st.artifact_ledger.filter (fun r => r.sprint_id == sid),
        ∀ a, r.actual_hash = some a → a = r.expected_hash) ∧
    (∀ r ∈ (validate_sprint_artifacts st sid).1.sprint_ledger, r.sprint_id = sid →
      (r.status = "validated" ↔
        (validate_sprint_artifacts st sid).2.mismatched_artifacts = 0) ∧
      (r.status = "hash_mismatch" ↔
        ¬(validate_sprint_artifacts st sid).2.mismatched_artifacts = 0)) := by
  refine ⟨rfl, ?_, ?_, ?_, ?_⟩
  · intro r _
    refine ⟨?_, ?_⟩
    · intro h0
      simp [classifyRow, h0]
    · intro a ha
      simp only [classifyRow, ha]
      rcases eq_or_ne a r.expected_hash with hae | hae
      · simp [hae]
      · simp [hae, beq_iff_eq]
  · exact countStatus_partition _
  · exact countStatus_mismatch_zero_iff _
  · intro r hr hsid
    simp only [validate_sprint_artifacts, List.mem_map] at hr
    obtain ⟨r₀, hr₀, rfl⟩ := hr
    by_cases hc : (r₀.sprint_id == sid) = true
    · simp only [hc, if_true]
      split_ifs with hm
      · constructor
        · simpa using hm
        · constructor
          · intro hcon
            exact absurd hcon (by simp)
          · intro hcon
            exact absurd hm hcon
      · constructor
        · constructor
          · intro hcon
            exact absurd hcon (by simp)
          · intro hcon
            exact absurd hcon hm
        · simpa using hm
    · rw [if_neg hc] at hsid ⊢
      exact absurd (by rw [hsid]; exact beq_self_eq_true sid) hc

/-- C6 counterexample: with a single *pending* artifact row (no actual hash
yet), `validate_sprint_artifacts` reports `mismatched == 0` and flips the
parent status to `"validated"`, even though the artifact's actual hash (none)
does not equal its expected hash — refuting the claim's "mismatched==0 iff
every artifact's actual hash equals its expected hash". -/
theorem C6_counterexample :
    (validate_sprint_artifacts
        ⟨[⟨"s1", "h0", none, "t", "created"⟩],
         [⟨"s1", "a1", "e1", none, "pending", "f.py"⟩], []⟩ "s1").2.mismatched_artifacts
      = 0 ∧
    (⟨"s1", "a1", "e1", none, "pending", "f.py"⟩ : ArtifactRow).actual_hash ≠
      some (⟨"s1", "a1", "e1", none, "pending", "f.py"⟩ : ArtifactRow).expected_hash ∧
    (validate_sprint_artifacts
        ⟨[⟨"s1", "h0", none, "t", "created"⟩],
         [⟨"s1", "a1", "e1", none, "pending", "f.py"⟩], []⟩ "s1").1.sprint_ledger =
      [⟨"s1", "h0", none, "t", "validated"⟩] := by
  exact ⟨rfl, by decide, rfl⟩

/-! ## Claim C7 -/

/-- C7: `validate_artifact` is total — every run, including every failure
path (missing file, missing fallback attribute), yields a result value for
the artifact.  If the result carries an error, `validation_passed` is false
and the ledger records the `"error: <message>"` status with no hash; if it
carries no error, the result holds both hashes, `validation_passed` is true
exactly when the computed actual hash equals the resolved expected hash, and
the ledger records `"validated"` or `"mismatch"` accordingly. -/
theorem C7_validate_artifact_never_raises (fs : String → Option String)
    (workdir : String) (st : LedgerState) (artifact : PyArtifact)
    (sid : String) (oc : Option String) :
    (validate_artifact fs workdir st artifact sid oc).2.artifact_id =
      artifact.artifact_id ∧
    (∀ e, (validate_artifact fs workdir st artifact sid oc).2.error = some e →
      (validate_artifact fs workdir st artifact sid oc).2.validation_passed = false ∧
      (validate_artifact fs workdir st artifact sid oc).1 =
        update_artifact_hash st sid artifact.artifact_id none ("error: " ++ e)) ∧
    ((validate_artifact fs workdir st artifact sid oc).2.error = none →
      ∃ ah eh,
        (validate_artifact fs workdir st artifact sid oc).2.actual_sha256 = some ah ∧
        (validate_artifact fs workdir st artifact sid oc).2.expected_sha256 = some eh ∧
        ((validate_artifact fs workdir st artifact sid oc).2.validation_passed = true
          ↔ ah = eh) ∧
        (validate_artifact fs workdir st artifact sid oc).1 =
          update_artifact_hash st sid artifact.artifact_id (some ah)
            (if ah == eh then "validated" else "mismatch")) := by
  cases hoc : truthyStr oc with
  | true =>
      cases hexp : truthyStr artifact.expected_sha256 with
      | true =>
          refine ⟨by simp [validate_artifact, hoc, hexp], ?_, ?_⟩
          · intro e he
            simp [validate_artifact, hoc, hexp] at he
          · intro _
            refine ⟨sha256HexOfString (oc.getD ""),
              artifact.expected_sha256.getD "", ?_, ?_, ?_, ?_⟩ <;>
              simp [validate_artifact, hoc, hexp, beq_iff_eq]
      | false =>
          refine ⟨by simp [validate_artifact, hoc, hexp], ?_, ?_⟩
          · intro e he
            simp only [validate_artifact, hoc, hexp] at he ⊢
            simp at he
            subst he
            exact ⟨rfl, rfl⟩
          · intro hnone
            simp [validate_artifact, hoc, hexp] at hnone
  | false =>
      cases hfs : fs (workdir ++ "/" ++ artifact.path) with
      | none =>
          refine ⟨by simp [validate_artifact, hoc, hfs], ?_, ?_⟩
          · intro e he
            simp only [validate_artifact, hoc, hfs] at he ⊢
            simp at he
            subst he
            exact ⟨rfl, rfl⟩
          · intro hnone
            simp [validate_artifact, hoc, hfs] at hnone
      | some content =>
          cases hexp : truthyStr artifact.expected_sha256 with
          | true =>
              refine ⟨by simp [validate_artifact, hoc, hfs, hexp], ?_, ?_⟩
              · intro e he
                simp [validate_artifact, hoc, hfs, hexp] at he
              · intro _
                refine ⟨sha256HexOfString content,
                  artifact.expected_sha256.getD "", ?_, ?_, ?_, ?_⟩ <;>
                  simp [validate_artifact, hoc, hfs, hexp, beq_iff_eq]
          | false =>
              refine ⟨by simp [validate_artifact, hoc, hfs, hexp], ?_, ?_⟩
              · intro e he
                simp only [validate_artifact, hoc, hfs, hexp] at he ⊢
                simp at he
                subst he
                exact ⟨rfl, rfl⟩
              · intro hnone
                simp [validate_artifact, hoc, hfs, hexp] at hnone

/-! ## Claim C8 -/

set_option maxRecDepth 10000 in
/-- C8 (evidence of the code bug): an artifact whose `expected_sha256` is
unset, validated against an existing file, does *not* get a plan-fingerprint
comparison: `artifact.calculate_expected_hash()` does not exist on the
`Artifact` class, the `AttributeError` lands in the `except` handler, an
`"error: ..."` status is recorded and an error result is returned. -/
theorem C8_missing_fallback_method_yields_error :
    (validate_artifact (fun p => if p == "w/f.py" then some "x=1" else none) "w"
        ⟨[], [⟨"s1", "a1", "e1", none, "pending", "f.py"⟩], []⟩
        ⟨"a1", "f.py", none⟩ "s1" none).2 =
      ⟨"a1", none, none, false, some attrErrorMsg⟩ ∧
    (validate_artifact (fun p => if p == "w/f.py" then some "x=1" else none) "w"
        ⟨[], [⟨"s1", "a1", "e1", none, "pending", "f.py"⟩], []⟩
        ⟨"a1", "f.py", none⟩ "s1" none).1.artifact_ledger =
      [⟨"s1", "a1", "e1", none, "error: " ++ attrErrorMsg, "f.py"⟩] := by
  exact ⟨by decide, by decide⟩

/-! ## Claim C9 -/

/-- C9 counterexample: with no key material supplied, the signer generates
(and saves) a development keypair even though no development-mode flag is set
— indeed no such flag exists in `LedgerSigner` at all. -/
theorem C9_counterexample :
    load_or_generate_keys none none (fun _ _ => true) = .generatedDev ∧
    KeyOutcome.generatedDev ≠ KeyOutcome.loaded := by
  refine ⟨rfl, by decide⟩

/-- C9 amended: a development keypair is generated exactly when the
environment does not supply both PEM values (truthily); no development-mode
flag is consulted, because none exists. -/
theorem C9_amended_keygen_unconditional (priv_pem pub_pem : Option String)
    (loadOk : String → String → Bool) :
    load_or_generate_keys priv_pem pub_pem loadOk = .generatedDev ↔
      ¬(truthyStr priv_pem = true ∧ truthyStr pub_pem = true) := by
  unfold load_or_generate_keys
  cases hp : truthyStr priv_pem
  · simp [hp]
  · cases hq : truthyStr pub_pem
    · simp [hp, hq]
    · simp only [hp, hq, Bool.and_self, if_true]
      split_ifs <;> simp

/-! ## Claim C10 -/

/-- C10: calling `validate_artifact` with `actual_content = ""` behaves
exactly as calling it with no content at all — the hash is computed from the
file on disk, because `if actual_content:` treats the empty string as absent.
The supplied content is used (and the file system ignored) only when it is a
non-empty string. -/
theorem C10_empty_content_falls_back_to_file
    (fs fs' : String → Option String) (workdir : String) (st : LedgerState)
    (artifact : PyArtifact) (sid : String) (s : String) (hs : s ≠ "") :
    validate_artifact fs workdir st artifact sid (some "") =
      validate_artifact fs workdir st artifact sid none ∧
    validate_artifact fs workdir st artifact sid (some s) =
      validate_artifact fs' workdir st artifact sid (some s) := by
  constructor
  · rfl
  · have ht : truthyStr (some s) = true := by simp [truthyStr, hs]
    simp [validate_artifact, ht]

/-- Witness for C10 with the non-empty content `"x=1"` and two file systems
that disagree everywhere. -/
theorem C10_empty_content_falls_back_to_file_witness :
    ("x=1" : String) ≠ "" ∧
    (validate_artifact (fun _ => none) "w" ⟨[], [], []⟩ ⟨"a1", "f.py", some "e"⟩
        "s1" (some "") =
      validate_artifact (fun _ => none) "w" ⟨[], [], []⟩ ⟨"a1", "f.py", some "e"⟩
        "s1" none ∧
    validate_artifact (fun _ => none) "w" ⟨[], [], []⟩ ⟨"a1", "f.py", some "e"⟩
        "s1" (some "x=1") =
      validate_artifact (fun _ => some "other") "w" ⟨[], [], []⟩
        ⟨"a1", "f.py", some "e"⟩ "s1" (some "x=1")) :=
  ⟨by decide,
   C10_empty_content_falls_back_to_file (fun _ => none) (fun _ => some "other")
     "w" ⟨[], [], []⟩ ⟨"a1", "f.py", some "e"⟩ "s1" "x=1" (by decide)⟩

end OLLA2


